import Mathlib

/-!
# realize — `watcher/exec.go`

A shallow embedding of the process supervisor (`goRun` and its stream reader),
the five tool invocations (`goBuild`, `goInstall`, `goFmt`, `goTest`,
`goGenerate`) and the command batch runner (`cmds`).

Everything the Go code asks of the operating system (running a command, the
clock, pipes, the environment) is answered by an explicit `World` or `RunEnv`
value, so every function below is a total, computable Lean function.  What the
code does to the outside is recorded, in program order, in a trace of `Event`s.

`goRun` is the goroutine that executes `goRun`; each stream reader it spawns is
a goroutine of its own, modelled by `scanner`. `goRun` writes only `StdLog`,
a reader only the sequence of its stream.
-/

namespace Realize

/-! ## Data model -/

/-- A Go `error` value; `msg` is what `err.Error()` returns. -/
structure GoError where
  msg : String
deriving DecidableEq, Repr

/-- One log entry, `BufferOut{Time, Text}`. `Time` is a clock reading. -/
structure BufferOut where
  Time : Nat
  Text : String
deriving DecidableEq, Repr

/-- The log buffer of a project, `p.Buffer`. -/
structure Buffer where
  StdOut : List BufferOut
  StdErr : List BufferOut
  StdLog : List BufferOut
deriving DecidableEq, Repr

/-- The local `bytes.Buffer` variables a tool invocation captures output in. -/
inductive Sink where
  | out
  | stderr
deriving DecidableEq, Repr

/-- An `exec.Cmd` as built by `exec.Command(name, args...)`, with its `Dir` and
the writers assigned to `Stdout` and `Stderr` (`none` when left unset). -/
structure Cmd where
  Name : String
  Args : List String
  Dir : String
  Stdout : Option Sink
  Stderr : Option Sink
deriving DecidableEq, Repr

/-- Effects on the outside world, in the order the code performs them. -/
inductive Event where
  | run (c : Cmd)                      -- build.Run()
  | setenv (key value : String)        -- os.Setenv
  | stdoutPipe                         -- build.StdoutPipe()
  | stderrPipe                         -- build.StderrPipe()
  | start (c : Cmd)                    -- build.Start()
  | closeRunner                        -- close(runner)
  | goScanner (isError : Bool)         -- go scanner(stop, output, isError)
  | closeStop (isError : Bool)         -- close(stop)
  | kill                               -- build.Process.Kill()
  | sync                               -- p.sync()
  | wrDone                             -- wr.Done()
  | logPrintln (text : String)         -- log.Println
  | fmtPrint (text : String)           -- fmt.Print
  | create (path : String)             -- p.Create(path)
  | writeString (text : String)        -- f.WriteString
  | fatal (msg : String) (err : GoError)  -- p.Fatal
deriving DecidableEq, Repr

/-- What a finished `build.Run()` leaves behind: the chunks the child wrote, in
write order (`true` marks a chunk written to its standard error), and the error
`Run` returns (`none` for `nil`). -/
structure RunResult where
  chunks : List (Bool × String)
  err : Option GoError

/-- The answers of the operating system and of the standard library. Oracles
that take a `List Event` may depend on everything done so far. -/
structure World where
  now : Nat → Nat                                        -- the n-th reading of time.Now()
  run : List Event → Cmd → RunResult                     -- build.Run()
  setenv : List Event → String → String → Option GoError -- os.Setenv
  getenv : String → String                               -- os.Getenv
  join : String → String → String                        -- filepath.Join
  baseName : String → String                             -- filepath.Base
  writeString : List Event → String → Option GoError     -- f.WriteString
  format : Nat → String                                  -- t.Format("2006-01-02 15:04:05")

/-- The fields of `Project` that `exec.go` reads or writes. -/
structure Project where
  Name : String
  base : String
  path : String
  Params : List String
  CliStreams : Bool      -- p.Cli.Streams
  FileStreams : Bool     -- p.File.Streams
  Output : String        -- p.parent.Resources.Output
  Buffer : Buffer

/-- The project together with the number of clock readings taken so far and
the trace of effects performed so far. -/
structure Sys where
  p : Project
  ticks : Nat
  trace : List Event

/-- How a call ends. -/
inductive Outcome (α : Type) where
  | returned (v : α)   -- the call returns v to its caller
  | aborted            -- p.Fatal ended the whole program
  | blocked            -- the call waits forever
  | panicked           -- a run-time panic
deriving DecidableEq, Repr

/-- Record one effect. -/
def emit (s : Sys) (e : Event) : Sys :=
  { s with trace := s.trace ++ [e] }

/-- The statement `p.Buffer.StdOut = append(p.Buffer.StdOut, BufferOut{Time: time.Now(), Text: text})`. -/
def appendStdOut (W : World) (s : Sys) (text : String) : Sys :=
  { s with
    ticks := s.ticks + 1
    p := { s.p with Buffer := { s.p.Buffer with
      StdOut := s.p.Buffer.StdOut ++ [⟨W.now s.ticks, text⟩] } } }

/-- The statement `p.Buffer.StdErr = append(p.Buffer.StdErr, BufferOut{Time: time.Now(), Text: text})`. -/
def appendStdErr (W : World) (s : Sys) (text : String) : Sys :=
  { s with
    ticks := s.ticks + 1
    p := { s.p with Buffer := { s.p.Buffer with
      StdErr := s.p.Buffer.StdErr ++ [⟨W.now s.ticks, text⟩] } } }

/-- The statement `p.Buffer.StdLog = append(p.Buffer.StdLog, BufferOut{Time: time.Now(), Text: text})`. -/
def appendStdLog (W : World) (s : Sys) (text : String) : Sys :=
  { s with
    ticks := s.ticks + 1
    p := { s.p with Buffer := { s.p.Buffer with
      StdLog := s.p.Buffer.StdLog ++ [⟨W.now s.ticks, text⟩] } } }

/-- Modelled from the spec: `p.Fatal` is defined outside `exec.go`; the spec
says a kill failure and an output-file write failure abort the enclosing
program, so the call never comes back. -/
def Fatal {α : Type} (s : Sys) (msg : String) (err : GoError) : Outcome α × Sys :=
  (Outcome.aborted, emit s (Event.fatal msg err))

/-! ## Strings -/

/-- The single quote character. -/
def squote : Char := Char.ofNat 39

/-- The double quote character. -/
def dquote : Char := Char.ofNat 34

/-- Cut a character list at every character satisfying `sep`; the separators are
dropped and empty pieces are kept, so there is one more piece than separators. -/
def splitChars (sep : Char → Bool) : List Char → List (List Char)
  | [] => [[]]
  | c :: cs =>
    if sep c then [] :: splitChars sep cs
    else
      match splitChars sep cs with
      | [] => [[c]]
      | t :: ts => (c :: t) :: ts

/-- The call `strings.Replace(s, old, new, -1)` for a one-character `old`:
every occurrence of `old` becomes `new`. -/
def stringsReplace (s : String) (old : Char) (new : String) : String :=
  ⟨s.data.flatMap fun c => if c = old then new.data else [c]⟩

/-- The call `strings.Split(s, sep)` for a one-character `sep`. -/
def stringsSplit (s : String) (sep : Char) : List String :=
  (splitChars (fun c => c == sep) s.data).map String.mk

/-- The call `strings.Join(elems, sep)`. -/
def stringsJoin (elems : List String) (sep : String) : String :=
  ⟨List.intercalate sep.data (elems.map String.data)⟩

/-- The characters `unicode.IsSpace` accepts in the Latin-1 range. -/
def isSpace (c : Char) : Bool :=
  c == ' ' || c == Char.ofNat 9 || c == Char.ofNat 10 || c == Char.ofNat 11 ||
  c == Char.ofNat 12 || c == Char.ofNat 13 || c == Char.ofNat 133 || c == Char.ofNat 160

/-- The whitespace-separated fields of a string, as the specification words it
(`strings.Fields`): maximal runs of non-space characters. -/
def whitespaceFields (s : String) : List String :=
  ((splitChars isSpace s.data).filter fun t => t ≠ []).map String.mk

/-! ## Command batch runner -/

/-- Line 191: the command string with every single and double quote removed. -/
def stripQuotes (cmd : String) : String :=
  stringsReplace (stringsReplace cmd squote "") dquote ""

/-- Lines 191-192: the token list `c`. -/
def cmdTokens (cmd : String) : List String :=
  stringsSplit (stripQuotes cmd) ' '

/-- Lines 193-194: the command built from a command string. -/
def cmdOf (p : Project) (cmd : String) : Cmd :=
  ⟨(cmdTokens cmd).headD "", (cmdTokens cmd).tail, p.base, none, none⟩

/-- The function `cmds`, lines 189-202. The result list is the named result `errors`. -/
def cmds (W : World) : Sys → List String → Outcome (List GoError) × Sys
  | s, [] => (Outcome.returned [], s)
  | s, cmd :: rest =>
    match cmdTokens cmd with
    | [] => (Outcome.panicked, s)
    | c0 :: cTail =>
      let build : Cmd := ⟨c0, cTail, s.p.base, none, none⟩
      let r := W.run s.trace build
      let s1 := emit s (Event.run build)
      match r.err with
      | some err => (Outcome.returned ([] ++ [err]), appendStdErr W s1 err.msg)
      | none => cmds W s1 rest

/-- The result of running the `j`-th command of the list (counting from 0) once
the commands before it have been run, in order, from state `s`. -/
def runAt (W : World) (s : Sys) (cs : List String) (j : Nat) : RunResult :=
  W.run (s.trace ++ (cs.take j).map fun c => Event.run (cmdOf s.p c)) (cmdOf s.p (cs.getD j ""))

/-! ## Tool invocations -/

/-- What the local buffer `k` holds after `c` has run and its child wrote
`chunks`: the chunks of every stream wired to `k`, in write order. -/
def sinkContent (c : Cmd) (chunks : List (Bool × String)) (k : Sink) : String :=
  String.join ((chunks.filter fun ch => (if ch.1 then c.Stderr else c.Stdout) = some k).map Prod.snd)

/-- The writer `build.Stderr` as the caller sees it after the run: the content
of the buffer it points to, `none` for a nil writer. -/
def capturedStderr (c : Cmd) (chunks : List (Bool × String)) : Option String :=
  c.Stderr.map (sinkContent c chunks)

/-- The writer `build.Stdout` as the caller sees it after the run. -/
def capturedStdout (c : Cmd) (chunks : List (Bool × String)) : Option String :=
  c.Stdout.map (sinkContent c chunks)

/-- Lines 102-105: `go build` in `p.base`, with separate buffers. -/
def goBuildCmd (p : Project) : Cmd :=
  ⟨"go", ["build"], p.base, some Sink.out, some Sink.stderr⟩

/-- Lines 125-128: `go install` in `p.base`, with separate buffers. -/
def goInstallCmd (p : Project) : Cmd :=
  ⟨"go", ["install"], p.base, some Sink.out, some Sink.stderr⟩

/-- Lines 142-145: `gofmt -s -w -e path` in `p.base`, both streams into `out`. -/
def goFmtCmd (p : Project) (path : String) : Cmd :=
  ⟨"gofmt", ["-s", "-w", "-e", path], p.base, some Sink.out, some Sink.out⟩

/-- Lines 160-163: `go test` in `path`, both streams into `out`. -/
def goTestCmd (path : String) : Cmd :=
  ⟨"go", ["test"], path, some Sink.out, some Sink.out⟩

/-- Lines 177-180: `go generate` in `path`, both streams into `out`. -/
def goGenerateCmd (path : String) : Cmd :=
  ⟨"go", ["generate"], path, some Sink.out, some Sink.out⟩

/-- Line 120: the value `goInstall` gives the variable `GOBIN`. -/
def gobinValue (W : World) : String :=
  W.join (W.getenv "GOPATH") "bin"

/-- The log after a failure `err` met in state `s`: `StdErr` has gained exactly
one entry, stamped with the clock reading taken then and holding `err.Error()`,
and `StdOut` and `StdLog` are as they were. -/
def LoggedFailure (W : World) (s after : Sys) (err : GoError) : Prop :=
  after.p.Buffer.StdErr = s.p.Buffer.StdErr ++ [⟨W.now s.ticks, err.msg⟩] ∧
  after.p.Buffer.StdOut = s.p.Buffer.StdOut ∧
  after.p.Buffer.StdLog = s.p.Buffer.StdLog

/-- The function `goBuild`, lines 96-111. The deferred `p.sync()` runs last. -/
def goBuild (W : World) (s : Sys) : (String × Option GoError) × Sys :=
  let build : Cmd := goBuildCmd s.p
  let r := W.run s.trace build
  let s1 := emit s (Event.run build)
  match r.err with
  | some err =>
    let s2 := appendStdErr W s1 err.msg
    ((sinkContent build r.chunks Sink.stderr, some err), emit s2 Event.sync)
  | none => (("", none), emit s1 Event.sync)

/-- The function `goInstall`, lines 114-134. -/
def goInstall (W : World) (s : Sys) : (String × Option GoError) × Sys :=
  let err := W.setenv s.trace "GOBIN" (gobinValue W)
  let s0 := emit s (Event.setenv "GOBIN" (gobinValue W))
  match err with
  | some err =>
    let s1 := appendStdErr W s0 err.msg
    (("", some err), emit s1 Event.sync)
  | none =>
    let build : Cmd := goInstallCmd s.p
    let r := W.run s0.trace build
    let s1 := emit s0 (Event.run build)
    match r.err with
    | some err =>
      let s2 := appendStdErr W s1 err.msg
      ((sinkContent build r.chunks Sink.stderr, some err), emit s2 Event.sync)
    | none => (("", none), emit s1 Event.sync)

/-- The function `goFmt`, lines 137-152. The result is the writer `build.Stderr`. -/
def goFmt (W : World) (s : Sys) (path : String) : (Option String × Option GoError) × Sys :=
  let build : Cmd := goFmtCmd s.p path
  let r := W.run s.trace build
  let s1 := emit s (Event.run build)
  match r.err with
  | some err =>
    let s2 := emit s1 (Event.fmtPrint "append")
    let s3 := appendStdErr W s2 err.msg
    ((capturedStderr build r.chunks, some err), emit s3 Event.sync)
  | none => ((none, none), emit s1 Event.sync)

/-- The function `goTest`, lines 155-169. The result is the writer `build.Stdout`. -/
def goTest (W : World) (s : Sys) (path : String) : (Option String × Option GoError) × Sys :=
  let build : Cmd := goTestCmd path
  let r := W.run s.trace build
  let s1 := emit s (Event.run build)
  match r.err with
  | some err =>
    let s2 := appendStdErr W s1 err.msg
    ((capturedStdout build r.chunks, some err), emit s2 Event.sync)
  | none => ((none, none), emit s1 Event.sync)

/-- The function `goGenerate`, lines 172-186: it runs `go generate` (the
comment at line 171 calls it an implementation of go test). The result is the
writer `build.Stdout`. -/
def goGenerate (W : World) (s : Sys) (path : String) : (Option String × Option GoError) × Sys :=
  let build : Cmd := goGenerateCmd path
  let r := W.run s.trace build
  let s1 := emit s (Event.run build)
  match r.err with
  | some err =>
    let s2 := appendStdErr W s1 err.msg
    ((capturedStdout build r.chunks, some err), emit s2 Event.sync)
  | none => ((none, none), emit s1 Event.sync)

/-! ## Process supervisor -/

/-- The three cases of the `select` at lines 84-91. -/
inductive Signal where
  | channel
  | stopOutput
  | stopError
deriving DecidableEq, Repr

/-- What `Kill()` does on a started process: it returns nil or an error. -/
inductive KillResult where
  | ok
  | failed (err : GoError)
deriving DecidableEq, Repr

/-- What one `goRun` call meets: the error each step returns (`none` for
`nil`), what the kill does, and which case of the `select` fires first (`none`
if none ever does). -/
structure RunEnv where
  stdoutPipe : Option GoError   -- build.StdoutPipe()
  stderrPipe : Option GoError   -- build.StderrPipe()
  start : Option GoError        -- build.Start()
  kill : KillResult             -- build.Process.Kill(), once build.Process is set
  fired : Option Signal

/-- One turn of the loop of the scanner closure, lines 56-75, for the line
`text` that `output.Text()` holds. The `select` has only a `default` case,
which is always taken. -/
def scanLine (W : World) (isError : Bool) (s : Sys) (text : String) : Outcome Unit × Sys :=
  let s1 := if isError then appendStdErr W s text else appendStdOut W s text
  let s2 := emit s1 Event.sync
  let s3 := if s2.p.CliStreams then emit s2 (Event.logPrintln text) else s2
  if s3.p.FileStreams then
    let path := W.join s3.p.base s3.p.Output
    let s4 := emit s3 (Event.create path)
    let t := W.now s4.ticks
    let s5 := { s4 with ticks := s4.ticks + 1 }
    let line := W.format t ++ " : " ++ text ++ "\r\n"
    let s6 := emit s5 (Event.writeString line)
    match W.writeString s5.trace line with
    | some err => Fatal s6 "" err
    | none => (Outcome.returned (), s6)
  else (Outcome.returned (), s3)

/-- Lines 55-77: one turn of the loop for each token that `output.Scan()`
yields, then, once `output.Scan()` has returned false, `close(stop)`. -/
def scanLoop (W : World) (isError : Bool) : Sys → List String → Outcome Unit × Sys
  | s, [] => (Outcome.returned (), emit s (Event.closeStop isError))
  | s, text :: rest =>
    match scanLine W isError s text with
    | (Outcome.returned _, s1) => scanLoop W isError s1 rest
    | other => other

/-- The newline character. -/
def newline : Char := Char.ofNat 10

/-- The carriage return character. -/
def carriageReturn : Char := Char.ofNat 13

/-- The constant `bufio.MaxScanTokenSize`, `64 * 1024`: the size the buffer of
a `bufio.Scanner` may grow to when, as at line 51, none is set. -/
def maxScanTokenSize : Nat := 64 * 1024

/-- The number of bytes of a piece of the stream. -/
def byteLen (data : List Char) : Nat :=
  (String.mk data).utf8ByteSize

/-- The helper `dropCR` of `bufio.ScanLines`: one trailing carriage return is
dropped. -/
def dropCR (data : List Char) : List Char :=
  if data.getLast? = some carriageReturn then data.dropLast else data

/-- The tokens a `bufio.Scanner` with the `ScanLines` split function and the
default buffer yields on the pieces of a stream cut at its newlines (the last
piece is what follows the last newline). A piece followed by a newline is a
token, without its trailing carriage return, if it and its newline fit in the
buffer; the last piece is a token if it is not empty and leaves room in the
buffer for the read that meets the end of the stream. At the first piece that
does not fit `Scan` fails with `ErrTooLong` and yields nothing more. -/
def scanTokens : List (List Char) → List (List Char)
  | [] => []
  | [last] => if last ≠ [] ∧ byteLen last < maxScanTokenSize then [dropCR last] else []
  | piece :: next :: rest =>
    if byteLen piece < maxScanTokenSize then dropCR piece :: scanTokens (next :: rest) else []

/-- The texts `output.Text()` holds after the successive successful calls of
`output.Scan()`, for `output = bufio.NewScanner(pipe)` (line 51) and `stream`
the bytes read from the pipe until it ends. -/
def bufioScan (stream : String) : List String :=
  (scanTokens (splitChars (fun c => c == newline) stream.data)).map String.mk

/-- The scanner closure, lines 54-78, on the stream `output` reads. Line 55
does not look at `output.Err()`: when `Scan` stops, for any reason, the loop
ends and `stop` is closed. -/
def scanner (W : World) (isError : Bool) (s : Sys) (stream : String) : Outcome Unit × Sys :=
  scanLoop W isError s (bufioScan stream)

/-- The stream made of the given lines: each line is followed by a newline,
except that the last one is not when `terminated` is false. -/
def linesData (terminated : Bool) : List String → List Char
  | [] => []
  | [l] => if terminated then l.data ++ [newline] else l.data
  | l :: next :: rest => l.data ++ newline :: linesData terminated (next :: rest)

/-- The stream made of the given lines, as a string. -/
def linesStream (terminated : Bool) (lines : List String) : String :=
  ⟨linesData terminated lines⟩

/-- The lines a stream reader is able to log: those before the first line of
`maxScanTokenSize` bytes or more, each without its trailing carriage return. -/
def readLines (lines : List String) : List String :=
  (lines.takeWhile fun l => decide (l.utf8ByteSize < maxScanTokenSize)).map
    fun l => String.mk (dropCR l.data)

/-- The sequence of the Log Buffer a stream reader writes to: `StdErr` when
`isError`, otherwise `StdOut`. -/
def streamOf (isError : Bool) (b : Buffer) : List BufferOut :=
  if isError then b.StdErr else b.StdOut

/-- The command `goRun` builds, lines 20-26. -/
def goRunCmd (W : World) (p : Project) : Cmd :=
  if p.Params.length ≠ 0 then
    ⟨W.join (W.getenv "GOBIN") (W.baseName p.path), p.Params, p.base, none, none⟩
  else
    ⟨W.join (W.getenv "GOBIN") (W.baseName p.path), [], p.base, none, none⟩

set_option linter.unusedVariables false in
/-- The body of `goRun`, lines 38-92, up to its `return`. The second
`err` assignment at line 39 replaces the first before line 41 reads it. The
third component tells whether `build.Process` is set when the body is left:
it is nil until `build.Start()` (line 45) has succeeded. -/
def goRunBody (W : World) (E : RunEnv) (s : Sys) : Outcome (Option GoError) × Sys × Bool :=
  let build := goRunCmd W s.p
  let s1 := emit s Event.stdoutPipe
  let err := E.stdoutPipe
  let s2 := emit s1 Event.stderrPipe
  let err := E.stderrPipe
  match err with
  | some e => (Outcome.returned (some e), emit s2 (Event.logPrintln e.msg), false)
  | none =>
    let s3 := emit s2 (Event.start build)
    match E.start with
    | some e => (Outcome.returned (some e), emit s3 (Event.logPrintln e.msg), false)
    | none =>
      let s4 := emit s3 Event.closeRunner
      let s5 := appendStdLog W s4 "Started"
      let s6 := emit (emit s5 (Event.goScanner false)) (Event.goScanner true)
      match E.fired with
      | none => (Outcome.blocked, s6, true)
      | some _ => (Outcome.returned none, s6, true)

/-- The deferred function of `goRun`, lines 27-36, run when the body returns
`r`. Line 28 calls `Kill` through the pointer `build.Process`: when that is
still nil (`processSet = false`) the call dereferences nil and panics, and
nothing after it runs. -/
def goRunDeferred (W : World) (E : RunEnv) (processSet : Bool) (r : Option GoError) (s : Sys) :
    Outcome (Option GoError) × Sys :=
  if processSet then
    let s1 := emit s Event.kill
    match E.kill with
    | KillResult.failed err =>
      let s2 := appendStdLog W s1 ("Failed to stop: " ++ err.msg)
      Fatal s2 "Failed to stop:" err
    | KillResult.ok =>
      let s2 := appendStdLog W s1 "Ended"
      let s3 := emit s2 (Event.logPrintln "Ended")
      let s4 := emit s3 Event.sync
      (Outcome.returned r, emit s4 Event.wrDone)
  else (Outcome.panicked, s)

/-- The function `goRun`, lines 18-93: the body, then the deferred function if the body
returns. -/
def goRun (W : World) (E : RunEnv) (s : Sys) : Outcome (Option GoError) × Sys :=
  match goRunBody W E s with
  | (Outcome.returned r, s1, processSet) => goRunDeferred W E processSet r s1
  | (other, s1, _) => (other, s1)

/-! ## Time order of the Log Buffer -/

/-- A sequence of entries is non-decreasing in `Time`. -/
def TimeSorted (l : List BufferOut) : Prop :=
  l.Pairwise fun a b => a.Time ≤ b.Time

/-- Every entry of the sequence was stamped with one of the first `n` readings
of the clock. -/
def StampedBefore (W : World) (n : Nat) (l : List BufferOut) : Prop :=
  ∀ e ∈ l, ∃ i, i < n ∧ e.Time = W.now i

/-- Every entry of the three sequences carries a reading the clock has given
so far. -/
def Stamped (W : World) (s : Sys) : Prop :=
  StampedBefore W s.ticks s.p.Buffer.StdOut ∧
  StampedBefore W s.ticks s.p.Buffer.StdErr ∧
  StampedBefore W s.ticks s.p.Buffer.StdLog

/-- Each of the three sequences is non-decreasing in `Time`. -/
def TimeOrdered (s : Sys) : Prop :=
  TimeSorted s.p.Buffer.StdOut ∧ TimeSorted s.p.Buffer.StdErr ∧ TimeSorted s.p.Buffer.StdLog

/-! ## Concrete worlds -/

/-- A world in which every call succeeds and the clock counts its readings. -/
def stillWorld : World where
  now := fun n => n
  run := fun _ _ => ⟨[], none⟩
  setenv := fun _ _ _ => none
  getenv := fun _ => ""
  join := fun a b => a ++ "/" ++ b
  baseName := fun a => a
  writeString := fun _ _ => none
  format := fun _ => "t"

/-- A project with empty buffers, no parameters and both echo flags off, before
any clock reading or effect. -/
def sys0 : Sys where
  p := ⟨"app", "/src/app", "/src/app", [], false, false, "out.log", ⟨[], [], []⟩⟩
  ticks := 0
  trace := []

/-- A world like `stillWorld` in which running the program `false` fails. -/
def falseFails : World :=
  { stillWorld with
    run := fun _ c => if c.Name = "false" then ⟨[], some ⟨"exit status 1"⟩⟩ else ⟨[], none⟩ }

/-- A world like `stillWorld` in which every command writes `warn` to its
standard output and `boom` to its standard error and then fails. -/
def brokenTools : World :=
  { stillWorld with
    run := fun _ _ => ⟨[(false, "warn"), (true, "boom")], some ⟨"exit status 2"⟩⟩ }

/-- A world like `stillWorld` in which `os.Setenv` fails. -/
def noSetenv : World :=
  { stillWorld with setenv := fun _ _ _ => some ⟨"setenv: invalid argument"⟩ }

/-- A world like `stillWorld` in which writing to the output file fails. -/
def fullDisk : World :=
  { stillWorld with writeString := fun _ _ => some ⟨"no space left on device"⟩ }

/-- A line of 70000 bytes. -/
def longLine : String :=
  ⟨List.replicate 70000 'x'⟩

/-- The project of `sys0` with file echo switched on. -/
def sysFile : Sys :=
  { sys0 with p := { sys0.p with FileStreams := true } }

/-- A `goRun` call in which `build.StdoutPipe()` fails and every later step
succeeds; the external termination signal fires first. -/
def maskedEnv : RunEnv where
  stdoutPipe := some ⟨"pipe: too many open files"⟩
  stderrPipe := none
  start := none
  kill := KillResult.ok
  fired := some Signal.channel

/-- A `goRun` call for a missing binary: both pipes are obtained and
`build.Start()` fails. -/
def startFails : RunEnv where
  stdoutPipe := none
  stderrPipe := none
  start := some ⟨"exec: not found"⟩
  kill := KillResult.ok
  fired := none

/-- A `goRun` call in which `build.StderrPipe()` fails. -/
def stderrPipeFails : RunEnv where
  stdoutPipe := none
  stderrPipe := some ⟨"pipe: too many open files"⟩
  start := none
  kill := KillResult.ok
  fired := none

/-- A `goRun` call in which every step succeeds and the standard output reader
finishes first. -/
def cleanEnv : RunEnv where
  stdoutPipe := none
  stderrPipe := none
  start := none
  kill := KillResult.ok
  fired := some Signal.stopOutput

/-- The state of `sys0` after two lines of output were logged at the first two
clock readings. -/
def sysBusy : Sys :=
  { sys0 with
    p := { sys0.p with Buffer := ⟨[⟨0, "a"⟩, ⟨1, "b"⟩], [], []⟩ }
    ticks := 2 }

/-! ## Strings: lemmas -/

theorem splitChars_ne_nil (sep : Char → Bool) (l : List Char) : splitChars sep l ≠ [] := by
  induction l with
  | nil => simp [splitChars]
  | cons c cs ih =>
    unfold splitChars
    split
    · simp
    · split <;> simp

theorem splitChars_mem (sep : Char → Bool) (l : List Char) :
    ∀ t ∈ splitChars sep l, ∀ c ∈ t, c ∈ l ∧ sep c = false := by
  induction l with
  | nil =>
    intro t ht c hc
    simp [splitChars] at ht
    subst ht
    simp at hc
  | cons a as ih =>
    intro t ht c hc
    unfold splitChars at ht
    by_cases hsep : sep a = true
    · simp only [hsep, if_true, List.mem_cons] at ht
      rcases ht with rfl | ht
      · simp at hc
      · exact ⟨List.mem_cons_of_mem _ (ih t ht c hc).1, (ih t ht c hc).2⟩
    · simp only [hsep] at ht
      cases hsp : splitChars sep as with
      | nil => exact absurd hsp (splitChars_ne_nil sep as)
      | cons t0 ts =>
        rw [hsp] at ht ih
        simp only [Bool.false_eq_true, if_false, List.mem_cons] at ht
        rcases ht with rfl | ht
        · rcases List.mem_cons.1 hc with rfl | hc
          · exact ⟨List.mem_cons_self _ _, by simpa using hsep⟩
          · have := ih t0 (List.mem_cons_self _ _) c hc
            exact ⟨List.mem_cons_of_mem _ this.1, this.2⟩
        · have := ih t (List.mem_cons_of_mem _ ht) c hc
          exact ⟨List.mem_cons_of_mem _ this.1, this.2⟩

theorem intercalate_cons_cons (sep : List Char) (c : Char) (t : List Char)
    (ts : List (List Char)) :
    List.intercalate sep ((c :: t) :: ts) = c :: List.intercalate sep (t :: ts) := by
  cases ts <;> simp [List.intercalate, List.intersperse]

theorem intercalate_nil_cons (sep : List Char) (t : List Char) (ts : List (List Char)) :
    List.intercalate sep ([] :: t :: ts) = sep ++ List.intercalate sep (t :: ts) := by
  simp [List.intercalate, List.intersperse]

theorem intercalate_splitChars (a : Char) (l : List Char) :
    List.intercalate [a] (splitChars (fun c => c == a) l) = l := by
  induction l with
  | nil => simp [splitChars, List.intercalate]
  | cons c cs ih =>
    unfold splitChars
    cases hsp : splitChars (fun c => c == a) cs with
    | nil => exact absurd hsp (splitChars_ne_nil _ cs)
    | cons t0 ts =>
      rw [hsp] at ih
      by_cases hc : (c == a) = true
      · simp only [hc, if_true]
        rw [intercalate_nil_cons, ih]
        simp at hc
        simp [hc]
      · simp only [hc, Bool.false_eq_true, if_false]
        rw [intercalate_cons_cons, ih]

theorem splitChars_congr (p q : Char → Bool) (l : List Char) (h : ∀ c ∈ l, p c = q c) :
    splitChars p l = splitChars q l := by
  induction l with
  | nil => simp [splitChars]
  | cons c cs ih =>
    have hcs := ih (fun x hx => h x (List.mem_cons_of_mem _ hx))
    unfold splitChars
    rw [h c (List.mem_cons_self _ _), hcs]

theorem stringsReplace_empty_data (s : String) (old : Char) :
    (stringsReplace s old "").data = s.data.filter (fun c => c ≠ old) := by
  unfold stringsReplace
  show (s.data.flatMap fun c => if c = old then [] else [c]) = _
  induction s.data with
  | nil => rfl
  | cons c cs ih =>
    by_cases hc : c = old
    · simp [List.flatMap_cons, hc, ih]
    · simp [List.flatMap_cons, hc, ih]

theorem stripQuotes_data (cmd : String) :
    (stripQuotes cmd).data = cmd.data.filter (fun c => c ≠ squote ∧ c ≠ dquote) := by
  unfold stripQuotes
  rw [stringsReplace_empty_data, stringsReplace_empty_data, List.filter_filter]
  congr 1
  funext c
  simp [and_comm]

/-! ## Command batch runner: lemmas -/

theorem cmdTokens_ne_nil (cmd : String) : cmdTokens cmd ≠ [] := by
  unfold cmdTokens stringsSplit
  intro h
  exact splitChars_ne_nil _ _ (List.map_eq_nil_iff.1 h)

theorem cmds_cons (W : World) (s : Sys) (cmd : String) (rest : List String) :
    cmds W s (cmd :: rest) =
      match (W.run s.trace (cmdOf s.p cmd)).err with
      | some err =>
        (Outcome.returned [err], appendStdErr W (emit s (Event.run (cmdOf s.p cmd))) err.msg)
      | none => cmds W (emit s (Event.run (cmdOf s.p cmd))) rest := by
  rw [cmds]
  unfold cmdOf
  cases h : cmdTokens cmd with
  | nil => exact absurd h (cmdTokens_ne_nil cmd)
  | cons c0 cTail => simp

theorem runAt_zero (W : World) (s : Sys) (cmd : String) (rest : List String) :
    runAt W s (cmd :: rest) 0 = W.run s.trace (cmdOf s.p cmd) := by
  simp [runAt]

theorem runAt_succ (W : World) (s : Sys) (cmd : String) (rest : List String) (j : Nat) :
    runAt W s (cmd :: rest) (j + 1) = runAt W (emit s (Event.run (cmdOf s.p cmd))) rest j := by
  simp [runAt, emit]

theorem cmds_first_failure_state (W : World) :
    ∀ (cs : List String) (s : Sys) (k : Nat) (e : GoError), k < cs.length →
      (∀ j, j < k → (runAt W s cs j).err = none) → (runAt W s cs k).err = some e →
      cmds W s cs =
        (Outcome.returned [e],
          appendStdErr W
            { s with trace := s.trace ++ (cs.take (k + 1)).map fun c => Event.run (cmdOf s.p c) }
            e.msg) := by
  intro cs
  induction cs with
  | nil => intro s k e hk; simp at hk
  | cons cmd rest ih =>
    intro s k e hk hok hfail
    rw [cmds_cons]
    cases k with
    | zero =>
      rw [runAt_zero] at hfail
      simp [hfail, emit]
    | succ k =>
      have h0 := hok 0 (Nat.succ_pos k)
      rw [runAt_zero] at h0
      rw [runAt_succ] at hfail
      have hk2 : k < rest.length := by simpa using hk
      have hok2 : ∀ j, j < k → (runAt W (emit s (Event.run (cmdOf s.p cmd))) rest j).err = none := by
        intro j hj
        rw [← runAt_succ]
        exact hok (j + 1) (Nat.succ_lt_succ hj)
      simp only [h0]
      rw [ih _ k e hk2 hok2 hfail]
      simp [emit]

theorem appendStdErr_trace (W : World) (s : Sys) (text : String) :
    (appendStdErr W s text).trace = s.trace := rfl

theorem cmds_trace (W : World) :
    ∀ (cs : List String) (s : Sys), ∃ n, n ≤ cs.length ∧
      (cmds W s cs).2.trace = s.trace ++ (cs.take n).map fun c => Event.run (cmdOf s.p c) := by
  intro cs
  induction cs with
  | nil => intro s; exact ⟨0, le_refl _, by simp [cmds]⟩
  | cons cmd rest ih =>
    intro s
    rw [cmds_cons]
    cases h : (W.run s.trace (cmdOf s.p cmd)).err with
    | some err => exact ⟨1, by simp, by simp [appendStdErr_trace, emit]⟩
    | none =>
      obtain ⟨n, hn, htr⟩ := ih (emit s (Event.run (cmdOf s.p cmd)))
      refine ⟨n + 1, by simpa using hn, ?_⟩
      simp only [htr]
      simp [emit]

theorem cmds_returns (W : World) :
    ∀ (cs : List String) (s : Sys), ∃ errs, (cmds W s cs).1 = Outcome.returned errs := by
  intro cs
  induction cs with
  | nil => intro s; exact ⟨[], by simp [cmds]⟩
  | cons cmd rest ih =>
    intro s
    rw [cmds_cons]
    cases h : (W.run s.trace (cmdOf s.p cmd)).err with
    | some err => exact ⟨[err], rfl⟩
    | none => exact ih _

theorem cmdOf_tokens (p : Project) (cmd : String) :
    (cmdOf p cmd).Name :: (cmdOf p cmd).Args = cmdTokens cmd := by
  unfold cmdOf
  cases h : cmdTokens cmd with
  | nil => exact absurd h (cmdTokens_ne_nil cmd)
  | cons c0 cTail => simp

theorem stringsJoin_cmdTokens (cmd : String) :
    stringsJoin (cmdTokens cmd) " " = stripQuotes cmd := by
  unfold stringsJoin cmdTokens stringsSplit
  have h : List.map String.data
      (List.map String.mk (splitChars (fun c => c == ' ') (stripQuotes cmd).data)) =
      splitChars (fun c => c == ' ') (stripQuotes cmd).data := by
    rw [List.map_map]
    exact List.map_id _
  rw [h]
  show String.mk (List.intercalate [' '] _) = _
  rw [intercalate_splitChars]

theorem cmdTokens_chars (cmd : String) :
    ∀ t ∈ cmdTokens cmd, ' ' ∉ t.data ∧ squote ∉ t.data ∧ dquote ∉ t.data := by
  intro t ht
  unfold cmdTokens stringsSplit at ht
  obtain ⟨l, hl, rfl⟩ := List.mem_map.1 ht
  have hmem := splitChars_mem _ _ l hl
  have hstrip : ∀ c ∈ (stripQuotes cmd).data, c ≠ squote ∧ c ≠ dquote := by
    intro c hc
    rw [stripQuotes_data] at hc
    simpa using (List.mem_filter.1 hc).2
  refine ⟨?_, ?_, ?_⟩
  · intro h
    have := (hmem _ h).2
    simp at this
  · intro h
    exact (hstrip _ (hmem _ h).1).1 rfl
  · intro h
    exact (hstrip _ (hmem _ h).1).2 rfl

theorem split_space_eq_fields (str : String)
    (hws : ∀ c ∈ str.data, isSpace c = true → c = ' ')
    (hne : "" ∉ stringsSplit str ' ') :
    stringsSplit str ' ' = whitespaceFields str := by
  unfold whitespaceFields
  unfold stringsSplit at hne ⊢
  have hcongr : splitChars isSpace str.data = splitChars (fun c => c == ' ') str.data := by
    apply splitChars_congr
    intro c hc
    by_cases h : isSpace c = true
    · have := hws c hc h
      subst this
      rfl
    · have h2 : ¬ c = ' ' := by
        intro hc2
        subst hc2
        exact h rfl
      simp only [Bool.not_eq_true] at h
      rw [h]
      simp [h2]
  rw [hcongr, List.filter_eq_self.2]
  intro t ht
  have : t ≠ [] := by
    intro h0
    subst h0
    exact hne (List.mem_map.2 ⟨[], ht, rfl⟩)
  simpa using this

/-! ## Command batch runner: claims -/

/-- C1. When the command at position `k` (counting from 0, so the `k+1`-th of
the list) is the first whose run fails, with error `e`: `cmds` returns exactly
`[e]`; the runs it performs are those of the first `k+1` commands, once each and
in list order, so no later command is run; `Buffer.StdErr` gains exactly one
entry, stamped with the current clock reading and holding `e.Error()`; and
`StdOut` and `StdLog` are unchanged. -/
theorem cmds_stops_at_first_failure (W : World) (s : Sys) (cs : List String) (k : Nat)
    (e : GoError) (hk : k < cs.length)
    (hok : ∀ j, j < k → (runAt W s cs j).err = none)
    (hfail : (runAt W s cs k).err = some e) :
    (cmds W s cs).1 = Outcome.returned [e] ∧
    (cmds W s cs).2.trace = s.trace ++ (cs.take (k + 1)).map (fun c => Event.run (cmdOf s.p c)) ∧
    (cmds W s cs).2.p.Buffer.StdErr = s.p.Buffer.StdErr ++ [⟨W.now s.ticks, e.msg⟩] ∧
    (cmds W s cs).2.p.Buffer.StdOut = s.p.Buffer.StdOut ∧
    (cmds W s cs).2.p.Buffer.StdLog = s.p.Buffer.StdLog := by
  rw [cmds_first_failure_state W cs s k e hk hok hfail]
  simp [appendStdErr]

/-- C1 at `["echo hi", "false", "echo never"]` in a world where `false` fails:
one error is returned, `echo hi` and `false` are run, `echo never` is not. -/
theorem cmds_stops_at_first_failure_witness :
    (cmds falseFails sys0 ["echo hi", "false", "echo never"]).1
      = Outcome.returned [⟨"exit status 1"⟩] ∧
    (cmds falseFails sys0 ["echo hi", "false", "echo never"]).2.trace
      = [Event.run ⟨"echo", ["hi"], "/src/app", none, none⟩,
         Event.run ⟨"false", [], "/src/app", none, none⟩] ∧
    (cmds falseFails sys0 ["echo hi", "false", "echo never"]).2.p.Buffer.StdErr
      = [⟨0, "exit status 1"⟩] := by
  have h := cmds_stops_at_first_failure falseFails sys0 ["echo hi", "false", "echo never"] 1
    ⟨"exit status 1"⟩ (by decide)
    (by intro j hj; interval_cases j; rfl) (by rfl)
  refine ⟨h.1, ?_, ?_⟩
  · rw [h.2.1]; rfl
  · rw [h.2.2.1]; rfl

/-- C8 as stated fails: for the command string `echo  hi` (two spaces) `cmds`
runs the program `echo` with the two arguments `""` and `hi`, while the
whitespace-separated fields of the string are `echo` and `hi`. -/
theorem cmds_double_space_not_fields :
    (cmds stillWorld sys0 ["echo  hi"]).2.trace
      = [Event.run ⟨"echo", ["", "hi"], "/src/app", none, none⟩] ∧
    whitespaceFields (stripQuotes "echo  hi") = ["echo", "hi"] ∧
    (cmdOf sys0.p "echo  hi").Name :: (cmdOf sys0.p "echo  hi").Args
      ≠ whitespaceFields (stripQuotes "echo  hi") := by
  refine ⟨by rfl, by rfl, by decide⟩

/-- C8, amended. Every run `cmds` performs is the run of `cmdOf` of one of the
command strings, taken in list order; the program name followed by the
arguments of that command are the pieces of the quote-stripped string cut at
every space character (`strings.Split(cmd, " ")`), so joining them with single
spaces gives the quote-stripped string back; and these pieces are the
whitespace-separated fields whenever the quote-stripped string has no
whitespace character other than the space and no piece is empty. -/
theorem cmds_runs_space_split (W : World) (s : Sys) (cs : List String) :
    (∃ n, n ≤ cs.length ∧
      (cmds W s cs).2.trace = s.trace ++ (cs.take n).map fun c => Event.run (cmdOf s.p c)) ∧
    ∀ cmd : String,
      (cmdOf s.p cmd).Name :: (cmdOf s.p cmd).Args = stringsSplit (stripQuotes cmd) ' ' ∧
      stringsJoin ((cmdOf s.p cmd).Name :: (cmdOf s.p cmd).Args) " " = stripQuotes cmd ∧
      ((∀ c ∈ (stripQuotes cmd).data, isSpace c = true → c = ' ') →
        "" ∉ stringsSplit (stripQuotes cmd) ' ' →
        (cmdOf s.p cmd).Name :: (cmdOf s.p cmd).Args = whitespaceFields (stripQuotes cmd)) := by
  refine ⟨cmds_trace W cs s, fun cmd => ⟨cmdOf_tokens s.p cmd, ?_, ?_⟩⟩
  · rw [cmdOf_tokens]
    exact stringsJoin_cmdTokens cmd
  · intro hws hne
    rw [cmdOf_tokens]
    exact split_space_eq_fields _ hws hne

/-- C8, amended, at the command string `echo "hi"`: the quotes go, the single
space separates, and the pieces `echo`, `hi` are the whitespace-separated
fields. -/
theorem cmds_runs_space_split_witness :
    (cmdOf sys0.p "echo \"hi\"").Name :: (cmdOf sys0.p "echo \"hi\"").Args = ["echo", "hi"] ∧
    (cmdOf sys0.p "echo \"hi\"").Name :: (cmdOf sys0.p "echo \"hi\"").Args
      = whitespaceFields (stripQuotes "echo \"hi\"") :=
  ⟨by rfl,
    ((cmds_runs_space_split stillWorld sys0 []).2 "echo \"hi\"").2.2 (by decide) (by decide)⟩

/-- C10. For every command string the token list `c` is non-empty, so `c[0]`
and `c[1:]` are in range and `cmds` never panics but returns; no token holds a
space, a single quote or a double quote; and the tokens joined with single
spaces are the quote-stripped string. -/
theorem cmdTokens_in_range (cmd : String) :
    cmdTokens cmd ≠ [] ∧
    (∀ (W : World) (s : Sys) (rest : List String),
      ∃ errs, (cmds W s (cmd :: rest)).1 = Outcome.returned errs) ∧
    (∀ t ∈ cmdTokens cmd, ' ' ∉ t.data ∧ squote ∉ t.data ∧ dquote ∉ t.data) ∧
    stringsJoin (cmdTokens cmd) " " = stripQuotes cmd :=
  ⟨cmdTokens_ne_nil cmd, fun W s rest => cmds_returns W (cmd :: rest) s,
    cmdTokens_chars cmd, stringsJoin_cmdTokens cmd⟩

/-! ## Tool invocations: claims -/

theorem sinkContent_separate (name : String) (args : List String) (dir : String)
    (chunks : List (Bool × String)) :
    sinkContent ⟨name, args, dir, some Sink.out, some Sink.stderr⟩ chunks Sink.stderr
      = String.join ((chunks.filter fun ch => ch.1).map Prod.snd) := by
  unfold sinkContent
  congr 2
  apply List.filter_congr
  intro ch _
  cases ch.1 <;> simp

theorem sinkContent_combined (name : String) (args : List String) (dir : String)
    (chunks : List (Bool × String)) :
    sinkContent ⟨name, args, dir, some Sink.out, some Sink.out⟩ chunks Sink.out
      = String.join (chunks.map Prod.snd) := by
  unfold sinkContent
  congr 2
  apply List.filter_eq_self.2
  intro ch _
  cases ch.1 <;> simp

/-- C5. Each of the five tool invocations, when its command's run succeeds
(for `goInstall`: after `os.Setenv` succeeded, since the command is not run
otherwise), returns the empty string or a nil writer together with a nil
error, and leaves the whole Log Buffer as it was. -/
theorem tools_success_silent (W : World) (s : Sys) (path : String) :
    ((W.run s.trace (goBuildCmd s.p)).err = none →
      (goBuild W s).1 = ("", none) ∧ (goBuild W s).2.p.Buffer = s.p.Buffer) ∧
    (W.setenv s.trace "GOBIN" (gobinValue W) = none →
      (W.run (s.trace ++ [Event.setenv "GOBIN" (gobinValue W)]) (goInstallCmd s.p)).err = none →
      (goInstall W s).1 = ("", none) ∧ (goInstall W s).2.p.Buffer = s.p.Buffer) ∧
    ((W.run s.trace (goFmtCmd s.p path)).err = none →
      (goFmt W s path).1 = (none, none) ∧ (goFmt W s path).2.p.Buffer = s.p.Buffer) ∧
    ((W.run s.trace (goTestCmd path)).err = none →
      (goTest W s path).1 = (none, none) ∧ (goTest W s path).2.p.Buffer = s.p.Buffer) ∧
    ((W.run s.trace (goGenerateCmd path)).err = none →
      (goGenerate W s path).1 = (none, none) ∧ (goGenerate W s path).2.p.Buffer = s.p.Buffer) := by
  refine ⟨?_, ?_, ?_, ?_, ?_⟩
  · intro h
    simp [goBuild, h, emit]
  · intro hset h
    simp only [goInstall, hset, emit, h]
    simp
  · intro h
    simp [goFmt, h, emit]
  · intro h
    simp [goTest, h, emit]
  · intro h
    simp [goGenerate, h, emit]

/-- C5 in a world where every command succeeds: `goBuild` and `goInstall`
return the empty string, `goFmt` a nil writer, each with a nil error. -/
theorem tools_success_silent_witness :
    (goBuild stillWorld sys0).1 = ("", none) ∧
    (goInstall stillWorld sys0).1 = ("", none) ∧
    (goFmt stillWorld sys0 "main.go").1 = (none, none) ∧
    (goFmt stillWorld sys0 "main.go").2.p.Buffer = sys0.p.Buffer :=
  ⟨((tools_success_silent stillWorld sys0 "main.go").1 rfl).1,
    ((tools_success_silent stillWorld sys0 "main.go").2.1 rfl rfl).1,
    ((tools_success_silent stillWorld sys0 "main.go").2.2.1 rfl).1,
    ((tools_success_silent stillWorld sys0 "main.go").2.2.1 rfl).2⟩

/-- C6. Each of the five tool invocations, on a failure `err` of its command's
run (and `goInstall` also on a failure `err` of `os.Setenv`, in which case the
command is not run and the output is empty), returns `err`, appends exactly one
entry holding `err.Error()` to `StdErr` and leaves `StdOut` and `StdLog` alone.
The output returned is what the writer `build.Stderr` captured (for `goTest`
and `goGenerate` the writer `build.Stdout`): for `goBuild` and `goInstall` the
chunks the command wrote to its standard error, for the other three, where both
streams share one buffer, all the chunks the command wrote, in write order. -/
theorem tools_failure_logged (W : World) (s : Sys) (path : String) (err : GoError) :
    ((W.run s.trace (goBuildCmd s.p)).err = some err →
      (goBuild W s).1.2 = some err ∧
      some (goBuild W s).1.1
        = capturedStderr (goBuildCmd s.p) (W.run s.trace (goBuildCmd s.p)).chunks ∧
      (goBuild W s).1.1 = String.join
        (((W.run s.trace (goBuildCmd s.p)).chunks.filter fun ch => ch.1).map Prod.snd) ∧
      LoggedFailure W s (goBuild W s).2 err) ∧
    (W.setenv s.trace "GOBIN" (gobinValue W) = some err →
      (goInstall W s).1 = ("", some err) ∧
      (goInstall W s).2.trace = s.trace ++ [Event.setenv "GOBIN" (gobinValue W), Event.sync] ∧
      LoggedFailure W s (goInstall W s).2 err) ∧
    (W.setenv s.trace "GOBIN" (gobinValue W) = none →
      (W.run (s.trace ++ [Event.setenv "GOBIN" (gobinValue W)]) (goInstallCmd s.p)).err
        = some err →
      (goInstall W s).1.2 = some err ∧
      some (goInstall W s).1.1 = capturedStderr (goInstallCmd s.p)
        (W.run (s.trace ++ [Event.setenv "GOBIN" (gobinValue W)]) (goInstallCmd s.p)).chunks ∧
      (goInstall W s).1.1 = String.join
        (((W.run (s.trace ++ [Event.setenv "GOBIN" (gobinValue W)])
          (goInstallCmd s.p)).chunks.filter fun ch => ch.1).map Prod.snd) ∧
      LoggedFailure W s (goInstall W s).2 err) ∧
    ((W.run s.trace (goFmtCmd s.p path)).err = some err →
      (goFmt W s path).1.2 = some err ∧
      (goFmt W s path).1.1
        = capturedStderr (goFmtCmd s.p path) (W.run s.trace (goFmtCmd s.p path)).chunks ∧
      (goFmt W s path).1.1
        = some (String.join ((W.run s.trace (goFmtCmd s.p path)).chunks.map Prod.snd)) ∧
      LoggedFailure W s (goFmt W s path).2 err) ∧
    ((W.run s.trace (goTestCmd path)).err = some err →
      (goTest W s path).1.2 = some err ∧
      (goTest W s path).1.1
        = capturedStdout (goTestCmd path) (W.run s.trace (goTestCmd path)).chunks ∧
      (goTest W s path).1.1
        = some (String.join ((W.run s.trace (goTestCmd path)).chunks.map Prod.snd)) ∧
      LoggedFailure W s (goTest W s path).2 err) ∧
    ((W.run s.trace (goGenerateCmd path)).err = some err →
      (goGenerate W s path).1.2 = some err ∧
      (goGenerate W s path).1.1
        = capturedStdout (goGenerateCmd path) (W.run s.trace (goGenerateCmd path)).chunks ∧
      (goGenerate W s path).1.1
        = some (String.join ((W.run s.trace (goGenerateCmd path)).chunks.map Prod.snd)) ∧
      LoggedFailure W s (goGenerate W s path).2 err) := by
  refine ⟨?_, ?_, ?_, ?_, ?_, ?_⟩
  · intro h
    refine ⟨?_, ?_, ?_, ?_⟩
    · simp [goBuild, h]
    · simp only [goBuild, h]
      simp [capturedStderr, goBuildCmd]
    · simp only [goBuild, h]
      exact sinkContent_separate _ _ _ _
    · simp [goBuild, h, LoggedFailure, appendStdErr, emit]
  · intro h
    refine ⟨?_, ?_, ?_⟩
    · simp [goInstall, h]
    · simp [goInstall, h, appendStdErr, emit]
    · simp [goInstall, h, LoggedFailure, appendStdErr, emit]
  · intro hset h
    refine ⟨?_, ?_, ?_, ?_⟩
    · simp [goInstall, hset, emit, h]
    · simp only [goInstall, hset, emit, h]
      simp [capturedStderr, goInstallCmd]
    · simp only [goInstall, hset, emit, h]
      exact sinkContent_separate _ _ _ _
    · simp [goInstall, hset, emit, h, LoggedFailure, appendStdErr]
  · intro h
    refine ⟨?_, ?_, ?_, ?_⟩
    · simp [goFmt, h]
    · simp [goFmt, h]
    · simp only [goFmt, h]
      simp only [capturedStderr, goFmtCmd, Option.map_some']
      rw [sinkContent_combined]
    · simp [goFmt, h, LoggedFailure, appendStdErr, emit]
  · intro h
    refine ⟨?_, ?_, ?_, ?_⟩
    · simp [goTest, h]
    · simp [goTest, h]
    · simp only [goTest, h]
      simp only [capturedStdout, goTestCmd, Option.map_some']
      rw [sinkContent_combined]
    · simp [goTest, h, LoggedFailure, appendStdErr, emit]
  · intro h
    refine ⟨?_, ?_, ?_, ?_⟩
    · simp [goGenerate, h]
    · simp [goGenerate, h]
    · simp only [goGenerate, h]
      simp only [capturedStdout, goGenerateCmd, Option.map_some']
      rw [sinkContent_combined]
    · simp [goGenerate, h, LoggedFailure, appendStdErr, emit]

/-- C6 where every command writes `warn` to its standard output and `boom` to
its standard error and fails, and where `os.Setenv` fails: `goBuild` returns
`boom`, `goFmt` and `goTest` return `warnboom`, `goInstall` returns the empty
string, each with the error, and `StdErr` holds the error's message. -/
theorem tools_failure_logged_witness :
    (goBuild brokenTools sys0).1 = ("boom", some ⟨"exit status 2"⟩) ∧
    (goBuild brokenTools sys0).2.p.Buffer.StdErr = [⟨0, "exit status 2"⟩] ∧
    (goInstall noSetenv sys0).1 = ("", some ⟨"setenv: invalid argument"⟩) ∧
    (goInstall brokenTools sys0).1.2 = some ⟨"exit status 2"⟩ ∧
    (goFmt brokenTools sys0 "main.go").1 = (some "warnboom", some ⟨"exit status 2"⟩) ∧
    (goTest brokenTools sys0 "pkg").1.1 = some "warnboom" ∧
    (goGenerate brokenTools sys0 "pkg").1.2 = some ⟨"exit status 2"⟩ := by
  have hb := (tools_failure_logged brokenTools sys0 "main.go" ⟨"exit status 2"⟩).1 rfl
  have hs := (tools_failure_logged noSetenv sys0 "main.go"
    ⟨"setenv: invalid argument"⟩).2.1 rfl
  have hi := (tools_failure_logged brokenTools sys0 "main.go" ⟨"exit status 2"⟩).2.2.1 rfl rfl
  have hf := (tools_failure_logged brokenTools sys0 "main.go" ⟨"exit status 2"⟩).2.2.2.1 rfl
  have ht := (tools_failure_logged brokenTools sys0 "pkg" ⟨"exit status 2"⟩).2.2.2.2.1 rfl
  have hg := (tools_failure_logged brokenTools sys0 "pkg" ⟨"exit status 2"⟩).2.2.2.2.2 rfl
  refine ⟨?_, ?_, hs.1, hi.1, ?_, ?_, hg.1⟩
  · exact Prod.ext (by rw [hb.2.2.1]; rfl) hb.1
  · rw [hb.2.2.2.1]; rfl
  · exact Prod.ext (by rw [hf.2.2.1]; rfl) hf.1
  · rw [ht.2.2.1]; rfl

/-! ## Stream reader -/

/-- What one successful turn of the scanner loop leaves behind. -/
theorem scanLine_ok (W : World) (isError : Bool) (s : Sys) (text : String)
    (hw : s.p.FileStreams = false ∨ ∀ tr line, W.writeString tr line = none) :
    ∃ s1 evs, scanLine W isError s text = (Outcome.returned (), s1) ∧
      s1.p.FileStreams = s.p.FileStreams ∧
      streamOf isError s1.p.Buffer = streamOf isError s.p.Buffer ++ [⟨W.now s.ticks, text⟩] ∧
      streamOf (!isError) s1.p.Buffer = streamOf (!isError) s.p.Buffer ∧
      s1.p.Buffer.StdLog = s.p.Buffer.StdLog ∧
      s1.trace = s.trace ++ evs ∧ Event.closeStop isError ∉ evs ∧
      evs.count Event.sync = 1 := by
  unfold scanLine
  cases hf : s.p.FileStreams with
  | false =>
    cases isError <;> cases hc : s.p.CliStreams <;>
      simp [appendStdErr, appendStdOut, emit, hf, hc, streamOf]
  | true =>
    have hall : ∀ tr line, W.writeString tr line = none := by
      rcases hw with h | h
      · rw [hf] at h; cases h
      · exact h
    cases isError <;> cases hc : s.p.CliStreams <;>
      simp [appendStdErr, appendStdOut, emit, hf, hc, streamOf, hall]

theorem scanLoop_ok (W : World) (isError : Bool) (s : Sys) (texts : List String)
    (hw : s.p.FileStreams = false ∨ ∀ tr line, W.writeString tr line = none) :
    (scanLoop W isError s texts).1 = Outcome.returned () ∧
    (∃ added, streamOf isError (scanLoop W isError s texts).2.p.Buffer
        = streamOf isError s.p.Buffer ++ added ∧ added.map BufferOut.Text = texts) ∧
    streamOf (!isError) (scanLoop W isError s texts).2.p.Buffer
      = streamOf (!isError) s.p.Buffer ∧
    (scanLoop W isError s texts).2.p.Buffer.StdLog = s.p.Buffer.StdLog ∧
    (∃ evs, (scanLoop W isError s texts).2.trace = s.trace ++ evs ++ [Event.closeStop isError] ∧
      Event.closeStop isError ∉ evs ∧ evs.count Event.sync = texts.length) := by
  induction texts generalizing s with
  | nil =>
    refine ⟨rfl, ⟨[], by simp [scanLoop, emit], rfl⟩, by simp [scanLoop, emit],
      by simp [scanLoop, emit], ⟨[], by simp [scanLoop, emit], by simp, by simp⟩⟩
  | cons text rest ih =>
    obtain ⟨s1, evs1, hstep, hfs, hseq, hother, hlog, htr, hno, hsync⟩ :=
      scanLine_ok W isError s text hw
    have hw1 : s1.p.FileStreams = false ∨ ∀ tr line, W.writeString tr line = none := by
      rcases hw with h | h
      · exact Or.inl (hfs.trans h)
      · exact Or.inr h
    obtain ⟨hret, ⟨added, hadd, htexts⟩, hoth, hl, ⟨evs, hevs, hnot, hcount⟩⟩ := ih s1 hw1
    have hrec : scanLoop W isError s (text :: rest) = scanLoop W isError s1 rest := by
      rw [scanLoop, hstep]
    rw [hrec]
    refine ⟨hret, ⟨⟨W.now s.ticks, text⟩ :: added, ?_, ?_⟩, ?_, ?_, ⟨evs1 ++ evs, ?_, ?_, ?_⟩⟩
    · rw [hadd, hseq]; simp
    · simp [htexts]
    · rw [hoth, hother]
    · rw [hl, hlog]
    · rw [hevs, htr]; simp
    · simp [hno, hnot]
    · simp [List.count_append, hsync, hcount]; omega

theorem splitChars_no_sep (sep : Char → Bool) (l : List Char) (h : ∀ x ∈ l, sep x = false) :
    splitChars sep l = [l] := by
  induction l with
  | nil => rfl
  | cons a as ih =>
    have ha : sep a = false := h a (List.mem_cons_self _ _)
    have has := ih fun x hx => h x (List.mem_cons_of_mem _ hx)
    unfold splitChars
    simp [ha, has]

theorem splitChars_append_sep (sep : Char → Bool) (l : List Char) (c : Char)
    (rest : List Char) (h : ∀ x ∈ l, sep x = false) (hc : sep c = true) :
    splitChars sep (l ++ c :: rest) = l :: splitChars sep rest := by
  induction l with
  | nil =>
    show splitChars sep (c :: rest) = _
    rw [splitChars]
    simp [hc]
  | cons a as ih =>
    have ha : sep a = false := h a (List.mem_cons_self _ _)
    have has := ih fun x hx => h x (List.mem_cons_of_mem _ hx)
    show splitChars sep (a :: (as ++ c :: rest)) = _
    rw [splitChars]
    simp [ha, has]

theorem newline_free (l : String) (h : newline ∉ l.data) :
    ∀ x ∈ l.data, (fun c => c == newline) x = false := by
  intro x hx
  by_cases hxe : x = newline
  · subst hxe
    exact absurd hx h
  · simp [hxe]

/-- The scanner yields, on the stream made of `lines`, the lines before the
first one that is too long, each without its trailing carriage return. -/
theorem bufioScan_linesStream (terminated : Bool) :
    ∀ lines : List String, (∀ l ∈ lines, newline ∉ l.data) →
      (terminated = false → lines.getLast? ≠ some "") →
      bufioScan (linesStream terminated lines) = readLines lines := by
  intro lines
  induction lines with
  | nil =>
    intro _ _
    simp [bufioScan, linesStream, linesData, splitChars, scanTokens, readLines]
  | cons l tl ih =>
    intro hnl hlast
    have hl := newline_free l (hnl l (List.mem_cons_self _ _))
    have hsize : byteLen l.data = l.utf8ByteSize := rfl
    cases tl with
    | nil =>
      cases terminated with
      | true =>
        have hsp : splitChars (fun c => c == newline) (l.data ++ [newline]) = [l.data, []] := by
          rw [splitChars_append_sep _ _ _ _ hl (by simp)]
          rfl
        simp only [bufioScan, linesStream, linesData, if_true, hsp, scanTokens, hsize, readLines]
        by_cases hshort : l.utf8ByteSize < maxScanTokenSize
        · simp [hshort, List.takeWhile]
        · simp [hshort, List.takeWhile]
      | false =>
        have hne : l.data ≠ [] := by
          intro h0
          apply hlast rfl
          have : l = "" := by
            cases l
            simp_all
          simp [this]
        simp only [bufioScan, linesStream, linesData, Bool.false_eq_true, if_false,
          splitChars_no_sep _ _ hl, scanTokens, hsize, readLines]
        by_cases hshort : l.utf8ByteSize < maxScanTokenSize
        · simp [hshort, hne, List.takeWhile]
        · simp [hshort, List.takeWhile]
    | cons next rest =>
      have ih2 := ih (fun x hx => hnl x (List.mem_cons_of_mem _ hx))
        (fun ht => by simpa [List.getLast?_cons_cons] using hlast ht)
      simp only [bufioScan, linesStream, readLines] at ih2 ⊢
      rw [linesData, splitChars_append_sep _ _ _ _ hl (by simp)]
      cases hsp : splitChars (fun c => c == newline) (linesData terminated (next :: rest)) with
      | nil => exact absurd hsp (splitChars_ne_nil _ _)
      | cons p ps =>
        rw [hsp] at ih2
        rw [scanTokens, hsize]
        by_cases hshort : l.utf8ByteSize < maxScanTokenSize
        · rw [if_pos hshort, List.map_cons, ih2]
          simp [List.takeWhile, hshort]
        · rw [if_neg hshort]
          simp [List.takeWhile, hshort]

theorem readLines_stop (pre : List String) (long : String) (post : List String)
    (hpre : ∀ l ∈ pre, l.utf8ByteSize < maxScanTokenSize)
    (hlong : ¬ long.utf8ByteSize < maxScanTokenSize) :
    readLines (pre ++ long :: post) = pre.map fun l => String.mk (dropCR l.data) := by
  unfold readLines
  congr 1
  induction pre with
  | nil =>
    show List.takeWhile _ (long :: post) = []
    rw [List.takeWhile_cons_of_neg]
    simpa using hlong
  | cons a as ih =>
    show List.takeWhile _ (a :: (as ++ long :: post)) = a :: as
    rw [List.takeWhile_cons_of_pos, ih fun l hl => hpre l (List.mem_cons_of_mem _ hl)]
    simpa using hpre a (List.mem_cons_self _ _)

theorem longLine_size : longLine.utf8ByteSize = 70000 := by
  have h : ∀ n : Nat, String.utf8ByteSize.go (List.replicate n 'x') = n := by
    intro n
    induction n with
    | zero => rfl
    | succ k ih =>
      show String.utf8ByteSize.go (List.replicate k 'x') + 'x'.utf8Size = k + 1
      rw [ih]
      rfl
  exact h 70000

/-- C7 as stated fails: with file echo on and a failing write to the output
file, the reader run over the two lines `a`, `b` appends `a` only, ends in
`p.Fatal` and never closes its stop channel. -/
theorem scanner_write_failure_aborts :
    (scanner fullDisk false sysFile (linesStream true ["a", "b"])).1 = Outcome.aborted ∧
    (scanner fullDisk false sysFile (linesStream true ["a", "b"])).2.p.Buffer.StdOut
      = [⟨0, "a"⟩] ∧
    Event.closeStop false ∉ (scanner fullDisk false sysFile (linesStream true ["a", "b"])).2.trace := by
  have h : bufioScan (linesStream true ["a", "b"]) = ["a", "b"] := by
    rw [bufioScan_linesStream true ["a", "b"] (by decide) (by decide)]
    decide
  unfold scanner
  rw [h]
  refine ⟨by rfl, by rfl, by decide⟩

/-- C7, amended. Take the stream made of the lines `l1..ln` (none holding a
newline; the last one followed by a newline or, if it is not empty, not). When
file echo is off, or no write to the output file fails, one run of the stream
reader returns; the sequence of its stream (`StdErr` when `isError`, otherwise
`StdOut`) is the old one followed by exactly one entry for each line before the
first line of 65536 bytes or more (for each of the `n` lines when all are
shorter), in order, its text being the line without its trailing carriage
return; the other stream's sequence and `StdLog` are unchanged; and
`close(stop)` happens exactly once, as the last effect, after the sync
notifications that follow the appends. -/
theorem scanner_appends_lines (W : World) (isError : Bool) (s : Sys) (lines : List String)
    (terminated : Bool)
    (hnl : ∀ l ∈ lines, newline ∉ l.data)
    (hlast : terminated = false → lines.getLast? ≠ some "")
    (hw : s.p.FileStreams = false ∨ ∀ tr line, W.writeString tr line = none) :
    (scanner W isError s (linesStream terminated lines)).1 = Outcome.returned () ∧
    (∃ added, streamOf isError (scanner W isError s (linesStream terminated lines)).2.p.Buffer
        = streamOf isError s.p.Buffer ++ added ∧
      added.map BufferOut.Text = readLines lines) ∧
    streamOf (!isError) (scanner W isError s (linesStream terminated lines)).2.p.Buffer
      = streamOf (!isError) s.p.Buffer ∧
    (scanner W isError s (linesStream terminated lines)).2.p.Buffer.StdLog = s.p.Buffer.StdLog ∧
    (∃ evs, (scanner W isError s (linesStream terminated lines)).2.trace
        = s.trace ++ evs ++ [Event.closeStop isError] ∧
      Event.closeStop isError ∉ evs ∧ evs.count Event.sync = (readLines lines).length) ∧
    ((∀ l ∈ lines, l.utf8ByteSize < maxScanTokenSize ∧ l.data.getLast? ≠ some carriageReturn) →
      readLines lines = lines) := by
  unfold scanner
  rw [bufioScan_linesStream terminated lines hnl hlast]
  obtain ⟨h1, h2, h3, h4, h5⟩ := scanLoop_ok W isError s (readLines lines) hw
  refine ⟨h1, h2, h3, h4, h5, ?_⟩
  intro hall
  unfold readLines
  rw [List.takeWhile_eq_self_iff.2 (by
    intro l hl
    simpa using (hall l hl).1)]
  conv_rhs => rw [← List.map_id lines]
  apply List.map_congr_left
  intro l hl
  have := (hall l hl).2
  simp [dropCR, this]

/-- C7, amended, at three streams. With file echo on and every write
succeeding the standard error reader logs `x`, `y`; the lines `a`, a line of
70000 bytes, `b` leave the single entry `a`; and the line `ok` followed by a
carriage return is logged as `ok`. -/
theorem scanner_appends_lines_witness :
    (∃ added, streamOf true (scanner stillWorld true sysFile (linesStream true ["x", "y"])).2.p.Buffer
        = streamOf true sysFile.p.Buffer ++ added ∧ added.map BufferOut.Text = ["x", "y"]) ∧
    (∃ added, streamOf false
        (scanner stillWorld false sys0 (linesStream true ["a", longLine, "b"])).2.p.Buffer
        = streamOf false sys0.p.Buffer ++ added ∧ added.map BufferOut.Text = ["a"]) ∧
    (∃ added, streamOf false
        (scanner stillWorld false sys0 (linesStream false ["ok\r"])).2.p.Buffer
        = streamOf false sys0.p.Buffer ++ added ∧ added.map BufferOut.Text = ["ok"]) := by
  have hx : readLines ["x", "y"] = ["x", "y"] := by decide
  have ha : readLines ["a", longLine, "b"] = ["a"] := by
    have h2 : ¬ longLine.utf8ByteSize < maxScanTokenSize := by
      rw [longLine_size]
      decide
    exact readLines_stop ["a"] longLine ["b"] (by decide) h2
  have hk : readLines ["ok\r"] = ["ok"] := by decide
  have hnlong : newline ∉ longLine.data := by
    intro h
    have := List.eq_of_mem_replicate h
    exact absurd this (by decide)
  have w1 := (scanner_appends_lines stillWorld true sysFile ["x", "y"] true (by decide)
    (by decide) (Or.inr fun _ _ => rfl)).2.1
  have w2 := (scanner_appends_lines stillWorld false sys0 ["a", longLine, "b"] true
    (by
      intro l hl
      simp at hl
      rcases hl with rfl | rfl | rfl
      · decide
      · exact hnlong
      · decide)
    (by intro h; cases h) (Or.inl rfl)).2.1
  have w3 := (scanner_appends_lines stillWorld false sys0 ["ok\r"] false (by decide)
    (by decide) (Or.inl rfl)).2.1
  rw [hx] at w1
  rw [ha] at w2
  rw [hk] at w3
  exact ⟨w1, w2, w3⟩

/-! ## Process supervisor: claims -/

/-- C2 fails on the code when only `build.StdoutPipe()` fails: line 39 assigns
`err` again before line 41 reads it, so the failure is dropped. `goRun` goes on
to start the process, closes `runner`, appends `Started` and `Ended`, and
returns nil instead of the pipe error. -/
theorem goRun_stdoutPipe_failure_masked :
    maskedEnv.stdoutPipe = some ⟨"pipe: too many open files"⟩ ∧
    (goRun stillWorld maskedEnv sys0).1 = Outcome.returned none ∧
    (goRun stillWorld maskedEnv sys0).2.trace =
      [Event.stdoutPipe, Event.stderrPipe, Event.start (goRunCmd stillWorld sys0.p),
        Event.closeRunner, Event.goScanner false, Event.goScanner true, Event.kill,
        Event.logPrintln "Ended", Event.sync, Event.wrDone] ∧
    (goRun stillWorld maskedEnv sys0).2.p.Buffer.StdLog = [⟨0, "Started"⟩, ⟨1, "Ended"⟩] := by
  refine ⟨by rfl, by rfl, by rfl, by rfl⟩

/-- C3. When the process starts (line 41 passes and `build.Start()` returns
nil), the kill succeeds and one of the three signals fires, whichever it is,
`goRun` returns nil and `StdLog` gains exactly two entries, `Started` followed
by `Ended`; `goRun` itself adds nothing to `StdOut` or `StdErr`. -/
theorem goRun_started_then_ended (W : World) (E : RunEnv) (s : Sys) (sig : Signal)
    (hpipe : E.stderrPipe = none) (hstart : E.start = none) (hkill : E.kill = KillResult.ok)
    (hsig : E.fired = some sig) :
    (goRun W E s).1 = Outcome.returned none ∧
    (goRun W E s).2.p.Buffer.StdLog
      = s.p.Buffer.StdLog ++ [⟨W.now s.ticks, "Started"⟩, ⟨W.now (s.ticks + 1), "Ended"⟩] ∧
    (goRun W E s).2.p.Buffer.StdOut = s.p.Buffer.StdOut ∧
    (goRun W E s).2.p.Buffer.StdErr = s.p.Buffer.StdErr := by
  simp [goRun, goRunBody, goRunDeferred, hpipe, hstart, hkill, hsig, appendStdLog, emit]

/-- C3 for each of the three signals, from empty buffers. -/
theorem goRun_started_then_ended_witness :
    (goRun stillWorld ⟨none, none, none, KillResult.ok, some Signal.channel⟩ sys0).2.p.Buffer.StdLog
      = [⟨0, "Started"⟩, ⟨1, "Ended"⟩] ∧
    (goRun stillWorld ⟨none, none, none, KillResult.ok, some Signal.stopOutput⟩ sys0).2.p.Buffer.StdLog
      = [⟨0, "Started"⟩, ⟨1, "Ended"⟩] ∧
    (goRun stillWorld ⟨none, none, none, KillResult.ok, some Signal.stopError⟩ sys0).1
      = Outcome.returned none :=
  ⟨(goRun_started_then_ended stillWorld ⟨none, none, none, KillResult.ok, some Signal.channel⟩ sys0
      Signal.channel rfl rfl rfl rfl).2.1,
    (goRun_started_then_ended stillWorld ⟨none, none, none, KillResult.ok, some Signal.stopOutput⟩ sys0
      Signal.stopOutput rfl rfl rfl rfl).2.1,
    (goRun_started_then_ended stillWorld ⟨none, none, none, KillResult.ok, some Signal.stopError⟩ sys0
      Signal.stopError rfl rfl rfl rfl).1⟩

/-- Whenever `goRun` returns to its caller, the last four effects before the
return are those of the deferred function, in order: the kill, the `Ended` log
line, one sync notification and `wr.Done()`; `goRun` performs no other kill,
sync notification or `wr.Done()` before them; and the process had been started,
so the return is one through the `select`. -/
theorem goRun_returned_cleanup (W : World) (E : RunEnv) (s : Sys) (r : Option GoError)
    (h : (goRun W E s).1 = Outcome.returned r) :
    (E.stderrPipe = none ∧ E.start = none ∧ E.fired ≠ none ∧ r = none) ∧
    ∃ evs, (goRun W E s).2.trace
        = s.trace ++ evs ++ [Event.kill, Event.logPrintln "Ended", Event.sync, Event.wrDone] ∧
      Event.kill ∉ evs ∧ Event.sync ∉ evs ∧ Event.wrDone ∉ evs := by
  unfold goRun goRunBody goRunDeferred at *
  cases hp : E.stderrPipe with
  | some e => simp [hp] at h
  | none =>
    cases hs : E.start with
    | some e => simp [hp, hs] at h
    | none =>
      cases hf : E.fired with
      | none => simp [hp, hs, hf] at h
      | some sig =>
        cases hk : E.kill with
        | failed ek => simp [hp, hs, hf, hk, Fatal] at h
        | ok =>
          have hr : r = none := by
            simp [hp, hs, hf, hk] at h
            exact h.symm
          exact ⟨⟨rfl, rfl, by simp, hr⟩,
            [Event.stdoutPipe, Event.stderrPipe, Event.start (goRunCmd W s.p),
              Event.closeRunner, Event.goScanner false, Event.goScanner true],
            by simp [hp, hs, hf, hk, emit, appendStdLog], by simp, by simp, by simp⟩

/-- C4 fails on the code on the pipe-failure and start-failure paths. When
`build.StderrPipe()` or `build.Start()` fails, the body returns the error with
`build.Process` still nil, so the deferred `build.Process.Kill()` panics:
`goRun` does not return to its caller, fires no sync notification, never calls
`wr.Done()`, and appends no `Ended` entry (the Log Buffer is as it was). -/
theorem goRun_startup_failure_panics (W : World) (E : RunEnv) (s : Sys)
    (h : E.stderrPipe ≠ none ∨ E.start ≠ none) :
    (goRun W E s).1 = Outcome.panicked ∧
    (goRun W E s).2.p.Buffer = s.p.Buffer ∧
    ∃ evs, (goRun W E s).2.trace = s.trace ++ evs ∧
      Event.kill ∉ evs ∧ Event.sync ∉ evs ∧ Event.wrDone ∉ evs := by
  unfold goRun goRunBody goRunDeferred
  cases hp : E.stderrPipe with
  | some e =>
    exact ⟨by simp, by simp [emit],
      [Event.stdoutPipe, Event.stderrPipe, Event.logPrintln e.msg], by simp [emit],
      by simp, by simp, by simp⟩
  | none =>
    cases hs : E.start with
    | some e =>
      exact ⟨by simp, by simp [emit],
        [Event.stdoutPipe, Event.stderrPipe, Event.start (goRunCmd W s.p),
          Event.logPrintln e.msg], by simp [emit], by simp, by simp, by simp⟩
    | none =>
      rcases h with h | h
      · exact absurd hp h
      · exact absurd hs h

/-- C4 at a missing binary and at a failing `build.StderrPipe()`: `goRun`
panics in its deferred function after these effects, with no sync notification
and no `wr.Done()`. -/
theorem goRun_startup_failure_panics_witness :
    (goRun stillWorld startFails sys0).1 = Outcome.panicked ∧
    (goRun stillWorld startFails sys0).2.trace
      = [Event.stdoutPipe, Event.stderrPipe, Event.start (goRunCmd stillWorld sys0.p),
          Event.logPrintln "exec: not found"] ∧
    (goRun stillWorld stderrPipeFails sys0).1 = Outcome.panicked ∧
    (goRun stillWorld stderrPipeFails sys0).2.trace
      = [Event.stdoutPipe, Event.stderrPipe, Event.logPrintln "pipe: too many open files"] :=
  ⟨(goRun_startup_failure_panics stillWorld startFails sys0 (Or.inr (by decide))).1, by rfl,
    (goRun_startup_failure_panics stillWorld stderrPipeFails sys0 (Or.inl (by decide))).1, by rfl⟩

/-! ## Time order: lemmas -/

theorem stampedBefore_mono (W : World) {n m : Nat} (h : n ≤ m) (l : List BufferOut)
    (hl : StampedBefore W n l) : StampedBefore W m l := by
  intro e he
  obtain ⟨i, hi, ht⟩ := hl e he
  exact ⟨i, lt_of_lt_of_le hi h, ht⟩

theorem stampedBefore_append (W : World) (n : Nat) (l : List BufferOut) (text : String)
    (hl : StampedBefore W n l) : StampedBefore W (n + 1) (l ++ [⟨W.now n, text⟩]) := by
  intro e he
  rcases List.mem_append.1 he with h | h
  · obtain ⟨i, hi, ht⟩ := hl e h
    exact ⟨i, Nat.lt_succ_of_lt hi, ht⟩
  · simp at h
    subst h
    exact ⟨n, Nat.lt_succ_self n, rfl⟩

theorem timeSorted_append (W : World) (hmono : Monotone W.now) (n : Nat) (l : List BufferOut)
    (text : String) (hs : TimeSorted l) (hl : StampedBefore W n l) :
    TimeSorted (l ++ [⟨W.now n, text⟩]) := by
  unfold TimeSorted at *
  rw [List.pairwise_append]
  refine ⟨hs, List.pairwise_singleton _ _, ?_⟩
  intro a ha b hb
  simp at hb
  subst hb
  obtain ⟨i, hi, ht⟩ := hl a ha
  show a.Time ≤ W.now n
  rw [ht]
  exact hmono (le_of_lt hi)

/-- The invariant: time order together with the stamps. -/
theorem ordered_emit (W : World) (s : Sys) (e : Event)
    (h : TimeOrdered s ∧ Stamped W s) : TimeOrdered (emit s e) ∧ Stamped W (emit s e) := h

theorem ordered_tick (W : World) (s : Sys) (h : TimeOrdered s ∧ Stamped W s) :
    TimeOrdered { s with ticks := s.ticks + 1 } ∧ Stamped W { s with ticks := s.ticks + 1 } :=
  ⟨h.1, stampedBefore_mono W (Nat.le_succ _) _ h.2.1, stampedBefore_mono W (Nat.le_succ _) _ h.2.2.1,
    stampedBefore_mono W (Nat.le_succ _) _ h.2.2.2⟩

theorem ordered_appendStdOut (W : World) (hmono : Monotone W.now) (s : Sys) (text : String)
    (h : TimeOrdered s ∧ Stamped W s) :
    TimeOrdered (appendStdOut W s text) ∧ Stamped W (appendStdOut W s text) :=
  ⟨⟨timeSorted_append W hmono _ _ text h.1.1 h.2.1, h.1.2.1, h.1.2.2⟩,
    stampedBefore_append W _ _ text h.2.1, stampedBefore_mono W (Nat.le_succ _) _ h.2.2.1,
    stampedBefore_mono W (Nat.le_succ _) _ h.2.2.2⟩

theorem ordered_appendStdErr (W : World) (hmono : Monotone W.now) (s : Sys) (text : String)
    (h : TimeOrdered s ∧ Stamped W s) :
    TimeOrdered (appendStdErr W s text) ∧ Stamped W (appendStdErr W s text) :=
  ⟨⟨h.1.1, timeSorted_append W hmono _ _ text h.1.2.1 h.2.2.1, h.1.2.2⟩,
    stampedBefore_mono W (Nat.le_succ _) _ h.2.1, stampedBefore_append W _ _ text h.2.2.1,
    stampedBefore_mono W (Nat.le_succ _) _ h.2.2.2⟩

theorem ordered_appendStdLog (W : World) (hmono : Monotone W.now) (s : Sys) (text : String)
    (h : TimeOrdered s ∧ Stamped W s) :
    TimeOrdered (appendStdLog W s text) ∧ Stamped W (appendStdLog W s text) :=
  ⟨⟨h.1.1, h.1.2.1, timeSorted_append W hmono _ _ text h.1.2.2 h.2.2.2⟩,
    stampedBefore_mono W (Nat.le_succ _) _ h.2.1, stampedBefore_mono W (Nat.le_succ _) _ h.2.2.1,
    stampedBefore_append W _ _ text h.2.2.2⟩

theorem ordered_scanLine (W : World) (hmono : Monotone W.now) (isError : Bool) (s : Sys)
    (text : String) (h : TimeOrdered s ∧ Stamped W s) :
    TimeOrdered (scanLine W isError s text).2 ∧ Stamped W (scanLine W isError s text).2 := by
  have h1 : TimeOrdered (if isError then appendStdErr W s text else appendStdOut W s text) ∧
      Stamped W (if isError then appendStdErr W s text else appendStdOut W s text) := by
    cases isError
    · exact ordered_appendStdOut W hmono s text h
    · exact ordered_appendStdErr W hmono s text h
  unfold scanLine
  simp only []
  generalize (if isError then appendStdErr W s text else appendStdOut W s text) = s1 at h1 ⊢
  have h3 : TimeOrdered (if (emit s1 Event.sync).p.CliStreams = true
        then emit (emit s1 Event.sync) (Event.logPrintln text) else emit s1 Event.sync) ∧
      Stamped W (if (emit s1 Event.sync).p.CliStreams = true
        then emit (emit s1 Event.sync) (Event.logPrintln text) else emit s1 Event.sync) := by
    split
    · exact ordered_emit W _ _ (ordered_emit W _ _ h1)
    · exact ordered_emit W _ _ h1
  generalize (if (emit s1 Event.sync).p.CliStreams = true
        then emit (emit s1 Event.sync) (Event.logPrintln text) else emit s1 Event.sync) = s3
    at h3 ⊢
  split
  · have h6 := ordered_emit W _ (Event.writeString
      (W.format (W.now (emit s3 (Event.create (W.join s3.p.base s3.p.Output))).ticks)
        ++ " : " ++ text ++ "\r\n"))
      (ordered_tick W _ (ordered_emit W s3 (Event.create (W.join s3.p.base s3.p.Output)) h3))
    split
    · exact ordered_emit W _ _ h6
    · exact h6
  · exact h3

theorem ordered_scanLoop (W : World) (hmono : Monotone W.now) (isError : Bool) :
    ∀ (texts : List String) (s : Sys), TimeOrdered s ∧ Stamped W s →
      TimeOrdered (scanLoop W isError s texts).2 ∧ Stamped W (scanLoop W isError s texts).2 := by
  intro texts
  induction texts with
  | nil => intro s h; exact ordered_emit W s _ h
  | cons text rest ih =>
    intro s h
    have hstep := ordered_scanLine W hmono isError s text h
    rw [scanLoop]
    rcases hres : scanLine W isError s text with ⟨o, s1⟩
    rw [hres] at hstep
    cases o with
    | returned v => exact ih s1 hstep
    | aborted => exact hstep
    | blocked => exact hstep
    | panicked => exact hstep

theorem ordered_goRun (W : World) (hmono : Monotone W.now) (E : RunEnv) (s : Sys)
    (h : TimeOrdered s ∧ Stamped W s) :
    TimeOrdered (goRun W E s).2 ∧ Stamped W (goRun W E s).2 := by
  have hdef : ∀ (b : Bool) (r : Option GoError) (t : Sys), TimeOrdered t ∧ Stamped W t →
      TimeOrdered (goRunDeferred W E b r t).2 ∧ Stamped W (goRunDeferred W E b r t).2 := by
    intro b r t ht
    unfold goRunDeferred
    cases b with
    | false => exact ht
    | true =>
      simp only [if_true]
      cases E.kill with
      | failed err =>
        exact ordered_emit W _ _ (ordered_appendStdLog W hmono _ _ (ordered_emit W _ _ ht))
      | ok =>
        exact ordered_emit W _ _ (ordered_emit W _ _ (ordered_emit W _ _
          (ordered_appendStdLog W hmono _ _ (ordered_emit W _ _ ht))))
  have hbody : TimeOrdered (goRunBody W E s).2.1 ∧ Stamped W (goRunBody W E s).2.1 := by
    unfold goRunBody
    have h2 := ordered_emit W _ Event.stderrPipe (ordered_emit W s Event.stdoutPipe h)
    cases E.stderrPipe with
    | some e => exact ordered_emit W _ _ h2
    | none =>
      have h3 := ordered_emit W _ (Event.start (goRunCmd W s.p)) h2
      cases E.start with
      | some e => exact ordered_emit W _ _ h3
      | none =>
        have h6 := ordered_emit W _ (Event.goScanner true) (ordered_emit W _ (Event.goScanner false)
          (ordered_appendStdLog W hmono _ "Started" (ordered_emit W _ Event.closeRunner h3)))
        cases E.fired with
        | none => exact h6
        | some sig => exact h6
  unfold goRun
  rcases hres : goRunBody W E s with ⟨o, s1, b⟩
  rw [hres] at hbody
  cases o with
  | returned r => exact hdef b r s1 hbody
  | aborted => exact hbody
  | blocked => exact hbody
  | panicked => exact hbody

theorem ordered_cmds (W : World) (hmono : Monotone W.now) :
    ∀ (cs : List String) (s : Sys), TimeOrdered s ∧ Stamped W s →
      TimeOrdered (cmds W s cs).2 ∧ Stamped W (cmds W s cs).2 := by
  intro cs
  induction cs with
  | nil => intro s h; exact h
  | cons cmd rest ih =>
    intro s h
    rw [cmds_cons]
    have h1 := ordered_emit W s (Event.run (cmdOf s.p cmd)) h
    cases (W.run s.trace (cmdOf s.p cmd)).err with
    | some err => exact ordered_appendStdErr W hmono _ _ h1
    | none => exact ih _ h1

theorem ordered_tools (W : World) (hmono : Monotone W.now) (s : Sys) (path : String)
    (h : TimeOrdered s ∧ Stamped W s) :
    (TimeOrdered (goBuild W s).2 ∧ Stamped W (goBuild W s).2) ∧
    (TimeOrdered (goInstall W s).2 ∧ Stamped W (goInstall W s).2) ∧
    (TimeOrdered (goFmt W s path).2 ∧ Stamped W (goFmt W s path).2) ∧
    (TimeOrdered (goTest W s path).2 ∧ Stamped W (goTest W s path).2) ∧
    (TimeOrdered (goGenerate W s path).2 ∧ Stamped W (goGenerate W s path).2) := by
  refine ⟨?_, ?_, ?_, ?_, ?_⟩
  · unfold goBuild
    simp only []
    have h1 := ordered_emit W s (Event.run (goBuildCmd s.p)) h
    cases (W.run s.trace (goBuildCmd s.p)).err with
    | some err => exact ordered_emit W _ _ (ordered_appendStdErr W hmono _ _ h1)
    | none => exact ordered_emit W _ _ h1
  · unfold goInstall
    simp only []
    have h0 := ordered_emit W s (Event.setenv "GOBIN" (gobinValue W)) h
    cases W.setenv s.trace "GOBIN" (gobinValue W) with
    | some err => exact ordered_emit W _ _ (ordered_appendStdErr W hmono _ _ h0)
    | none =>
      have h1 := ordered_emit W _ (Event.run (goInstallCmd s.p)) h0
      cases (W.run (emit s (Event.setenv "GOBIN" (gobinValue W))).trace (goInstallCmd s.p)).err with
      | some err => exact ordered_emit W _ _ (ordered_appendStdErr W hmono _ _ h1)
      | none => exact ordered_emit W _ _ h1
  · unfold goFmt
    simp only []
    have h1 := ordered_emit W s (Event.run (goFmtCmd s.p path)) h
    cases (W.run s.trace (goFmtCmd s.p path)).err with
    | some err =>
      exact ordered_emit W _ _ (ordered_appendStdErr W hmono _ _ (ordered_emit W _ _ h1))
    | none => exact ordered_emit W _ _ h1
  · unfold goTest
    simp only []
    have h1 := ordered_emit W s (Event.run (goTestCmd path)) h
    cases (W.run s.trace (goTestCmd path)).err with
    | some err => exact ordered_emit W _ _ (ordered_appendStdErr W hmono _ _ h1)
    | none => exact ordered_emit W _ _ h1
  · unfold goGenerate
    simp only []
    have h1 := ordered_emit W s (Event.run (goGenerateCmd path)) h
    cases (W.run s.trace (goGenerateCmd path)).err with
    | some err => exact ordered_emit W _ _ (ordered_appendStdErr W hmono _ _ h1)
    | none => exact ordered_emit W _ _ h1

/-! ## Time order: claim -/

/-- C9. Let the clock be non-decreasing and let every entry in the three
sequences carry a reading the clock has already given (each entry is stamped
when it is appended). If each of `StdOut`, `StdErr`, `StdLog` is non-decreasing
in `Time`, it is still so after one line of a stream reader, after a whole run
of a stream reader, after `goRun` (with its `Started`, `Ended` or `Failed to
stop` entry), after each of the five tool invocations and after `cmds`,
whatever the outcome of the call. -/
theorem appends_keep_time_order (W : World) (hmono : Monotone W.now) (s : Sys)
    (hstamped : Stamped W s) (hsorted : TimeOrdered s) :
    (∀ isError text, TimeOrdered (scanLine W isError s text).2) ∧
    (∀ isError lines, TimeOrdered (scanLoop W isError s lines).2) ∧
    (∀ isError stream, TimeOrdered (scanner W isError s stream).2) ∧
    (∀ E, TimeOrdered (goRun W E s).2) ∧
    TimeOrdered (goBuild W s).2 ∧
    TimeOrdered (goInstall W s).2 ∧
    (∀ path, TimeOrdered (goFmt W s path).2) ∧
    (∀ path, TimeOrdered (goTest W s path).2) ∧
    (∀ path, TimeOrdered (goGenerate W s path).2) ∧
    (∀ cs, TimeOrdered (cmds W s cs).2) :=
  ⟨fun isError text => (ordered_scanLine W hmono isError s text ⟨hsorted, hstamped⟩).1,
    fun isError lines => (ordered_scanLoop W hmono isError lines s ⟨hsorted, hstamped⟩).1,
    fun isError stream =>
      (ordered_scanLoop W hmono isError (bufioScan stream) s ⟨hsorted, hstamped⟩).1,
    fun E => (ordered_goRun W hmono E s ⟨hsorted, hstamped⟩).1,
    (ordered_tools W hmono s "" ⟨hsorted, hstamped⟩).1.1,
    (ordered_tools W hmono s "" ⟨hsorted, hstamped⟩).2.1.1,
    fun path => (ordered_tools W hmono s path ⟨hsorted, hstamped⟩).2.2.1.1,
    fun path => (ordered_tools W hmono s path ⟨hsorted, hstamped⟩).2.2.2.1.1,
    fun path => (ordered_tools W hmono s path ⟨hsorted, hstamped⟩).2.2.2.2.1,
    fun cs => (ordered_cmds W hmono cs s ⟨hsorted, hstamped⟩).1⟩

/-- C9 from a state holding two earlier output entries, with a clock that
counts its readings: the order holds after a stream reader run, after `goRun`
and after `goBuild`. -/
theorem appends_keep_time_order_witness :
    TimeOrdered (scanLoop stillWorld false sysBusy ["c", "d"]).2 ∧
    TimeOrdered (goRun stillWorld cleanEnv sysBusy).2 ∧
    TimeOrdered (goBuild stillWorld sysBusy).2 := by
  have hmono : Monotone stillWorld.now := fun a b hab => hab
  have hstamped : Stamped stillWorld sysBusy := by
    refine ⟨?_, ?_, ?_⟩
    · intro e he
      simp [sysBusy] at he
      rcases he with rfl | rfl
      · exact ⟨0, by decide, rfl⟩
      · exact ⟨1, by decide, rfl⟩
    · intro e he
      simp [sysBusy] at he
    · intro e he
      simp [sysBusy] at he
  have hsorted : TimeOrdered sysBusy := by
    refine ⟨?_, ?_, ?_⟩ <;> simp [TimeSorted, sysBusy]
  have h := appends_keep_time_order stillWorld hmono sysBusy hstamped hsorted
  exact ⟨h.2.1 false ["c", "d"], h.2.2.2.1 cleanEnv, h.2.2.2.2.1⟩

end Realize

